import Mathlib

/-!
Verification development for a small audio-transcription tool
(`main.py`): input validation (extension / size / MIME), temporary-file
lifecycle around an external model call, a fixed text substitution, and
CSV export of the collected results.

External effects (the model call, the filesystem, the UI widgets) are
embedded as explicit oracle parameters; machine integers stay exact
because Python integers are unbounded, and the one floating-point
expression in the source (`size / (1024*1024) > 50`) divides an integer
below 2^53 by a power of two, which IEEE doubles compute exactly, so it
is embedded as the equivalent exact integer comparison.
-/

/-- Python truthiness guard `s or ""` on strings: the empty string is
falsy, any other string is returned unchanged. -/
def pyOr (s : String) : String :=
  if s = "" then "" else s

theorem pyOr_eq (s : String) : pyOr s = s := by
  unfold pyOr
  split <;> simp_all

/-- Index of the last occurrence of `c` (Python `str.rfind`), `-1` when
absent. -/
def rfindIdx (c : Char) : List Char → Int
  | [] => -1
  | a :: rest =>
    let r := rfindIdx c rest
    if 0 ≤ r then r + 1
    else if a = c then 0 else -1

/-- Extension part of `os.path.splitext` (POSIX: separator `/`, no
alternate separator): the substring from the last dot found after the
last slash, except that a basename consisting only of leading dots up to
that position has no extension. -/
def splitextExt (p : List Char) : List Char :=
  let sepIndex := rfindIdx '/' p
  let dotIndex := rfindIdx '.' p
  if sepIndex < dotIndex then
    let between := (p.drop (sepIndex + 1).toNat).take (dotIndex - sepIndex - 1).toNat
    if between.all (fun c => c = '.') then [] else p.drop dotIndex.toNat
  else []

/-- `_safe_ext` of the source: `os.path.splitext(name or "")[1].lower()`.
`Char.toLower` lowercases ASCII only, while Python `str.lower` is
Unicode-wide; the difference is irrelevant to membership in the
allow-list `{".mp3"}` because no non-ASCII character lowercases to any
of `.`, `m`, `p`, `3`. -/
def _safe_ext (name : String) : String :=
  String.mk ((splitextExt (pyOr name).data).map Char.toLower)

/-- `ALLOWED_EXT = {".mp3"}` from the source. -/
def ALLOWED_EXT : List String := [".mp3"]

/-- `MAX_MB_EACH = 50` from the source. -/
def MAX_MB_EACH : Nat := 50

/-- `ALLOWED_MIME = {"audio/mpeg"}` from the source. -/
def ALLOWED_MIME : List String := ["audio/mpeg"]

/-- Environment of one `transcribe_from_bytesio` call: the fresh name
handed out by `tempfile.NamedTemporaryFile`, the outcome of
`model.transcribe` (an exception with a detail string, or its result
dictionary restricted to the optional `"text"` entry), and whether the
final `os.remove` raises. -/
structure TEnv where
  tmpName : String
  modelOutcome : Except String (Option String)
  removeRaises : Bool

/-- `transcribe_from_bytesio` of the source, acting on an explicit
filesystem state (the list of existing paths).  The buffer is written to
a fresh temporary file, `model.transcribe` runs on that path,
`result.get("text", "")` is extracted, and the `finally` block removes
the file when `tmp_path` is truthy and the path exists, swallowing any
exception from `os.remove`.  Returns the body's outcome (returned text
or propagated model exception) together with the final filesystem. -/
def transcribe_from_bytesio (env : TEnv) (fs : List String) :
    Except String String × List String :=
  let fs1 := env.tmpName :: fs
  let body : Except String String :=
    match env.modelOutcome with
    | .error e => .error e
    | .ok d => .ok (d.getD "")
  let fs2 :=
    if env.tmpName ≠ "" ∧ env.tmpName ∈ fs1 then
      if env.removeRaises then fs1 else fs1.erase env.tmpName
    else fs1
  (body, fs2)

/-- C1: for every call of `transcribe_from_bytesio` (any buffer, any
model outcome — success or exception), the temporary file created during
the call is absent from the filesystem after it returns whenever the
removal itself does not fail, and a failing removal is swallowed: the
call's returned value or exception is exactly the one it would have
produced had the removal succeeded. -/
theorem transcribe_cleans_tmpfile (env : TEnv) (fs : List String)
    (hname : env.tmpName ≠ "") (hfresh : env.tmpName ∉ fs) :
    (env.removeRaises = false → env.tmpName ∉ (transcribe_from_bytesio env fs).2)
    ∧ (transcribe_from_bytesio env fs).1 =
      (transcribe_from_bytesio ⟨env.tmpName, env.modelOutcome, false⟩ fs).1 := by
  constructor
  · intro hrm
    simp only [transcribe_from_bytesio, hrm]
    simp [hname, List.erase_cons_head, hfresh]
  · rfl

/-- Concrete instance of `transcribe_cleans_tmpfile`: a fresh nonempty
temporary path on an empty filesystem. -/
theorem transcribe_cleans_tmpfile_witness :
    ("/tmp/a.mp3" ≠ "" ∧ "/tmp/a.mp3" ∉ ([] : List String))
    ∧ "/tmp/a.mp3" ∉
      (transcribe_from_bytesio ⟨"/tmp/a.mp3", .ok (some "こんにちは"), false⟩ []).2 :=
  ⟨⟨by decide, by simp⟩,
    (transcribe_cleans_tmpfile ⟨"/tmp/a.mp3", .ok (some "こんにちは"), false⟩ []
      (by decide) (by simp)).1 rfl⟩

/-- The pattern `"クラシャ"` replaced by line 132 of the source. -/
def kurasha : List Char := ['ク', 'ラ', 'シ', 'ャ']

/-- The replacement `"コラショ"` of line 132 of the source. -/
def korasho : List Char := ['コ', 'ラ', 'シ', 'ョ']

/-- Python `str.replace("クラシャ", "コラショ")`, specialized to the one
hardcoded pair of the source: leftmost, non-overlapping replacement of
every occurrence, scanning left to right. -/
def replaceKurasha : List Char → List Char
  | 'ク' :: 'ラ' :: 'シ' :: 'ャ' :: rest => 'コ' :: 'ラ' :: 'シ' :: 'ョ' :: replaceKurasha rest
  | c :: rest => c :: replaceKurasha rest
  | [] => []

/-- `safe_text = (text or "").replace("クラシャ", "コラショ")` from the
source. -/
def safe_text (text : String) : String :=
  String.mk (replaceKurasha (pyOr text).data)

/-- Whether `pat` occurs as a contiguous substring of the list. -/
def occursIn (pat : List Char) : List Char → Bool
  | [] => List.isPrefixOf pat []
  | c :: rest => List.isPrefixOf pat (c :: rest) || occursIn pat rest

/-- Concatenation of the parts with `sep` between consecutive parts. -/
def joinWith (sep : List Char) : List (List Char) → List Char
  | [] => []
  | [p] => p
  | p :: ps => p ++ sep ++ joinWith sep ps

theorem joinWith_cons_cons (sep p q : List Char) (qs : List (List Char)) :
    joinWith sep (p :: q :: qs) = p ++ sep ++ joinWith sep (q :: qs) := rfl

theorem joinWith_cons_head (sep : List Char) (c : Char) (q : List Char)
    (qs : List (List Char)) :
    joinWith sep ((c :: q) :: qs) = c :: joinWith sep (q :: qs) := by
  cases qs with
  | nil => rfl
  | cons r rs => simp [joinWith_cons_cons, List.cons_append]

theorem isPrefixOf_iff_prefixList (l₁ l₂ : List Char) :
    l₁.isPrefixOf l₂ = true ↔ l₁ <+: l₂ := by
  induction l₁ generalizing l₂ with
  | nil =>
    constructor
    · intro _
      exact ⟨l₂, rfl⟩
    · intro _
      cases l₂ <;> rfl
  | cons a l ih =>
    cases l₂ with
    | nil =>
      constructor
      · intro h
        simp [List.isPrefixOf] at h
      · intro h
        rcases h with ⟨t, ht⟩
        simp at ht
    | cons b t =>
      simp [List.isPrefixOf, List.cons_prefix_cons, ih]

theorem prefixList_cons (c : Char) (q rest : List Char) (h : q <+: rest) :
    (c :: q) <+: (c :: rest) := by
  rcases h with ⟨t, ht⟩
  exact ⟨t, by rw [List.cons_append, ht]⟩

theorem replaceKurasha_pos (rest : List Char) :
    replaceKurasha ('ク' :: 'ラ' :: 'シ' :: 'ャ' :: rest) =
      'コ' :: 'ラ' :: 'シ' :: 'ョ' :: replaceKurasha rest := rfl

theorem isPrefixOf_kurasha_explicit (rest : List Char) :
    List.isPrefixOf kurasha ('ク' :: 'ラ' :: 'シ' :: 'ャ' :: rest) = true := by
  simp [kurasha, List.isPrefixOf]

theorem replaceKurasha_neg (c : Char) (rest : List Char)
    (h : List.isPrefixOf kurasha (c :: rest) = false) :
    replaceKurasha (c :: rest) = c :: replaceKurasha rest := by
  rw [replaceKurasha.eq_def]
  split
  · rename_i rest' heq
    rw [heq] at h
    rw [isPrefixOf_kurasha_explicit rest'] at h
    cases h
  · rename_i c' rest' _ heq
    cases heq
    rfl
  · rename_i heq
    cases heq

theorem occursIn_kurasha_nil : occursIn kurasha [] = false := by decide

theorem replaceKurasha_decomposition (n : Nat) :
    ∀ l : List Char, l.length ≤ n →
    ∃ parts : List (List Char), parts ≠ [] ∧
      l = joinWith kurasha parts ∧
      replaceKurasha l = joinWith korasho parts ∧
      (∀ p ∈ parts, occursIn kurasha p = false) ∧
      (∀ q qs, parts = q :: qs → q <+: l) := by
  induction n with
  | zero =>
    intro l hl
    have hnil : l = [] := List.length_eq_zero.mp (Nat.le_zero.mp hl)
    subst hnil
    refine ⟨[[]], by simp, rfl, rfl, ?_, ?_⟩
    · intro p hp
      simp at hp
      subst hp
      exact occursIn_kurasha_nil
    · intro q qs hq
      simp at hq
      simp [hq.1]
  | succ n ih =>
    intro l hl
    by_cases hpre : List.isPrefixOf kurasha l = true
    · obtain ⟨rest, hrest⟩ := (isPrefixOf_iff_prefixList kurasha l).mp hpre
      subst hrest
      have hlen : rest.length ≤ n := by
        simp [kurasha] at hl
        omega
      obtain ⟨parts', hne, hjoin, hrep, hocc, _⟩ := ih rest hlen
      obtain ⟨q, qs, hqs⟩ := List.exists_cons_of_ne_nil hne
      subst hqs
      refine ⟨[] :: q :: qs, by simp, ?_, ?_, ?_, ?_⟩
      · rw [joinWith_cons_cons]
        simp [← hjoin]
      · have : replaceKurasha (kurasha ++ rest) =
            korasho ++ replaceKurasha rest := by
          simp [kurasha, korasho, List.cons_append, replaceKurasha_pos]
        rw [this, joinWith_cons_cons, hrep]
        simp
      · intro p hp
        rcases List.mem_cons.mp hp with h1 | h2
        · subst h1
          exact occursIn_kurasha_nil
        · exact hocc p h2
      · intro q' qs' hq'
        cases hq'
        exact ⟨kurasha ++ rest, rfl⟩
    · cases l with
      | nil =>
        refine ⟨[[]], by simp, rfl, rfl, ?_, ?_⟩
        · intro p hp
          simp at hp
          subst hp
          exact occursIn_kurasha_nil
        · intro q qs hq
          simp at hq
          simp [hq.1]
      | cons c rest =>
        have hpre' : List.isPrefixOf kurasha (c :: rest) = false :=
          Bool.not_eq_true _ ▸ eq_false_of_ne_true hpre
        have hstep := replaceKurasha_neg c rest hpre'
        have hlen : rest.length ≤ n := by
          simp at hl
          omega
        obtain ⟨parts', hne, hjoin, hrep, hocc, hhead⟩ := ih rest hlen
        obtain ⟨q, qs, hqs⟩ := List.exists_cons_of_ne_nil hne
        subst hqs
        refine ⟨(c :: q) :: qs, by simp, ?_, ?_, ?_, ?_⟩
        · rw [joinWith_cons_head]
          simp [← hjoin]
        · rw [hstep, joinWith_cons_head, hrep]
        · intro p hp
          rcases List.mem_cons.mp hp with h1 | h2
          · subst h1
            have hq : occursIn kurasha q = false := hocc q (List.mem_cons_self q qs)
            have hqpre : q <+: rest := hhead q qs rfl
            simp only [occursIn, Bool.or_eq_false_iff]
            refine ⟨?_, hq⟩
            by_contra hcontra
            have hcq : List.isPrefixOf kurasha (c :: q) = true := by
              cases hx : List.isPrefixOf kurasha (c :: q) with
              | true => rfl
              | false => exact absurd hx hcontra
            have h1 : kurasha <+: (c :: q) := (isPrefixOf_iff_prefixList _ _).mp hcq
            have h2 : (c :: q) <+: (c :: rest) := prefixList_cons c q rest hqpre
            have h3 : kurasha <+: (c :: rest) := h1.trans h2
            have h4 := (isPrefixOf_iff_prefixList kurasha (c :: rest)).mpr h3
            rw [hpre'] at h4
            cases h4
          · exact hocc p (List.mem_cons_of_mem q h2)
        · intro q' qs' hq'
          cases hq'
          exact prefixList_cons c q rest (hhead q qs rfl)

/-- C4: the post-processor `safe_text` performs exactly the substitution
of the hardcoded pair: every model output decomposes into parts that are
free of the pattern `"クラシャ"`, the input being those parts joined by
the pattern and the output being the very same parts joined by
`"コラショ"` — so every occurrence is replaced and no other character is
altered; the substitution is a pure (deterministic, stateless) function
of the text. -/
theorem safe_text_replaces_every_kurasha (t : String) :
    ∃ parts : List (List Char), parts ≠ [] ∧
      t.data = joinWith kurasha parts ∧
      (safe_text t).data = joinWith korasho parts ∧
      ∀ p ∈ parts, occursIn kurasha p = false := by
  obtain ⟨parts, h1, h2, h3, h4, _⟩ :=
    replaceKurasha_decomposition t.data.length t.data le_rfl
  exact ⟨parts, h1, h2, by simp [safe_text, pyOr_eq, h3], h4⟩

/-- One uploaded file as the loop sees it: `file.name`, `file.size`
(`none` when the attribute is missing / `None`), and the browser-declared
content type `file.type` (`none` when absent). -/
structure UploadedFile where
  name : String
  size : Option Nat
  declaredType : Option String
deriving DecidableEq

/-- One row appended to `results`:
`{"ファイル名": file.name, "書き起こしテキスト": edited_text}`. -/
structure Row where
  fileName : String
  text : String
deriving DecidableEq

/-- External-effect oracle for one loop iteration: whether
`_bytesio_from_uploaded` succeeds, the temporary-file name, the model
call's outcome, whether `os.remove` raises, and the text the
`st.text_area` widget returns given the default it displays (identity
when the user does not edit). -/
structure FileEnv where
  readOk : Bool
  tmpName : String
  modelOutcome : Except String (Option String)
  removeRaises : Bool
  edit : String → String

/-- User-visible messages, one constructor per `st.warning` / `st.info` /
`st.success` call site, carrying exactly the data the corresponding
f-string interpolates. -/
inductive Msg where
  | warnTooLarge (sizeBytes : Nat) (name : String)
  | warnBadExt (name : String)
  | infoMime (mime : String) (name : String)
  | warnReadFail (name : String)
  | warnTranscribeFail (name : String)
  | successDone
  | warnExportFail
  | infoUploadPrompt
deriving DecidableEq

/-- Result of one loop iteration: the appended row if any, whether
`model.transcribe` was invoked, whether a temporary file was created,
and the messages shown. -/
structure FileOutcome where
  row : Option Row
  transcribeCalled : Bool
  tmpCreated : Bool
  msgs : List Msg
deriving DecidableEq

/-- The size rejection `size_mb > MAX_MB_EACH` where
`size_mb = (file.size or 0) / (1024 * 1024)` in IEEE doubles: exact
integer comparison, since the division by `2^20` is exact for every
integer below `2^53` and the relative rounding error (at most `2^-53`)
cannot move a quotient across the boundary `50` for larger ones. -/
def sizeExceeded (f : UploadedFile) : Bool :=
  MAX_MB_EACH * 1024 * 1024 < f.size.getD 0

/-- The advisory condition
`getattr(file, "type", None) and file.type not in ALLOWED_MIME`:
the declared type is present, truthy (nonempty), and outside the MIME
allow-list. -/
def mimeAdvisory (f : UploadedFile) : Bool :=
  match f.declaredType with
  | none => false
  | some t => t ≠ "" && !(ALLOWED_MIME.contains t)

/-- One iteration of `for file in uploaded_files` from the source: size
check, extension check, MIME advisory, buffer read, transcription with
the generic failure warning, post-processing, editing widget, and the
`results.append` of the row. -/
def processFile (f : UploadedFile) (env : FileEnv) : FileOutcome :=
  if sizeExceeded f then
    ⟨none, false, false, [.warnTooLarge (f.size.getD 0) f.name]⟩
  else if !(ALLOWED_EXT.contains (_safe_ext f.name)) then
    ⟨none, false, false, [.warnBadExt f.name]⟩
  else
    let mimeMsgs : List Msg :=
      if mimeAdvisory f then [.infoMime (f.declaredType.getD "") f.name] else []
    if !env.readOk then
      ⟨none, false, false, mimeMsgs ++ [.warnReadFail f.name]⟩
    else
      match (transcribe_from_bytesio ⟨env.tmpName, env.modelOutcome, env.removeRaises⟩ []).1 with
      | .error _ => ⟨none, true, true, mimeMsgs ++ [.warnTranscribeFail f.name]⟩
      | .ok text =>
        ⟨some ⟨f.name, env.edit (safe_text text)⟩, true, true, mimeMsgs ++ [.successDone]⟩

/-- The `results` list accumulated by the loop, in upload order. -/
def batchRows (files : List (UploadedFile × FileEnv)) : List Row :=
  files.filterMap (fun fe => (processFile fe.1 fe.2).row)

/-- All messages shown while processing the batch, in order. -/
def batchMsgs (files : List (UploadedFile × FileEnv)) : List Msg :=
  (files.map (fun fe => (processFile fe.1 fe.2).msgs)).flatten

/-- A file is accepted when every validation step passes and the model
call succeeds: exactly the condition under which the loop reaches
`results.append`. -/
def accepts (fe : UploadedFile × FileEnv) : Bool :=
  !sizeExceeded fe.1 && ALLOWED_EXT.contains (_safe_ext fe.1.name)
    && fe.2.readOk && fe.2.modelOutcome.isOk

/-- The text the model call yields for an accepted file:
`result.get("text", "")`. -/
def modelText (e : FileEnv) : String :=
  match e.modelOutcome with
  | .ok d => d.getD ""
  | .error _ => ""

/-- The row an accepted file contributes: its name and the (possibly
user-edited) post-processed transcript. -/
def mkRow (fe : UploadedFile × FileEnv) : Row :=
  ⟨fe.1.name, fe.2.edit (safe_text (modelText fe.2))⟩

theorem processFile_row (fe : UploadedFile × FileEnv) :
    (processFile fe.1 fe.2).row = if accepts fe then some (mkRow fe) else none := by
  obtain ⟨f, env⟩ := fe
  simp only [processFile, accepts, mkRow, modelText]
  by_cases hsz : sizeExceeded f <;>
    by_cases hext : _safe_ext f.name ∈ ALLOWED_EXT <;>
    by_cases hrd : env.readOk <;>
    cases hmo : env.modelOutcome <;>
    simp [hsz, hext, hrd, hmo, transcribe_from_bytesio, Except.isOk, Except.toBool]

theorem batchRows_eq_filter (files : List (UploadedFile × FileEnv)) :
    batchRows files = (files.filter accepts).map mkRow := by
  induction files with
  | nil => rfl
  | cons fe rest ih =>
    have hr := processFile_row fe
    by_cases h : accepts fe <;>
      simp only [batchRows, List.filterMap_cons, hr, h, if_true, if_false,
        List.filter_cons, Bool.false_eq_true, ite_false, ite_true] <;>
      simp only [batchRows] at ih <;>
      simp [ih, h]

theorem batchRows_append (xs ys : List (UploadedFile × FileEnv)) :
    batchRows (xs ++ ys) = batchRows xs ++ batchRows ys := by
  simp [batchRows, List.filterMap_append]

/-- C2: a file whose lower-cased extension is outside the allow-list
`{".mp3"}` triggers no transcription attempt, contributes no row, and is
absent from the export of any batch containing it. -/
theorem rejected_extension_never_transcribed (f : UploadedFile) (env : FileEnv)
    (h : ALLOWED_EXT.contains (_safe_ext f.name) = false) :
    (processFile f env).transcribeCalled = false
    ∧ (processFile f env).row = none
    ∧ ∀ pre post, batchRows (pre ++ (f, env) :: post) = batchRows (pre ++ post) := by
  have h' : _safe_ext f.name ∉ ALLOWED_EXT := by simpa using h
  have hmain : (processFile f env).transcribeCalled = false
      ∧ (processFile f env).row = none := by
    by_cases hsz : sizeExceeded f <;> simp [processFile, hsz, h']
  refine ⟨hmain.1, hmain.2, ?_⟩
  intro pre post
  simp [batchRows, List.filterMap_append, List.filterMap_cons, hmain.2]

/-- Concrete instance of `rejected_extension_never_transcribed`: a
`.wav` upload is not transcribed. -/
theorem rejected_extension_never_transcribed_witness :
    ALLOWED_EXT.contains (_safe_ext "song.wav") = false
    ∧ (processFile ⟨"song.wav", some 1000, none⟩
        ⟨true, "/tmp/t.mp3", .ok (some "テスト"), false, fun s => s⟩).transcribeCalled = false :=
  ⟨by decide,
    (rejected_extension_never_transcribed ⟨"song.wav", some 1000, none⟩
      ⟨true, "/tmp/t.mp3", .ok (some "テスト"), false, fun s => s⟩ (by decide)).1⟩

/-- C3: a file whose declared size exceeds `MAX_MB_EACH` megabytes is
skipped before any temporary file is created: no temporary file, no
transcription call, no row, and it is absent from the export of any
batch containing it. -/
theorem oversized_skipped_before_tmpfile (f : UploadedFile) (env : FileEnv)
    (h : MAX_MB_EACH * 1024 * 1024 < f.size.getD 0) :
    (processFile f env).tmpCreated = false
    ∧ (processFile f env).transcribeCalled = false
    ∧ (processFile f env).row = none
    ∧ ∀ pre post, batchRows (pre ++ (f, env) :: post) = batchRows (pre ++ post) := by
  have hsz : sizeExceeded f = true := by
    simp only [sizeExceeded]
    exact decide_eq_true h
  refine ⟨by simp [processFile, hsz], by simp [processFile, hsz], by simp [processFile, hsz], ?_⟩
  intro pre post
  simp [batchRows, List.filterMap_append, List.filterMap_cons, processFile, hsz]

/-- Concrete instance of `oversized_skipped_before_tmpfile`: a file one
byte over the 50 MB cap creates no temporary file. -/
theorem oversized_skipped_before_tmpfile_witness :
    MAX_MB_EACH * 1024 * 1024 < (some 52428801 : Option Nat).getD 0
    ∧ (processFile ⟨"big.mp3", some 52428801, none⟩
        ⟨true, "/tmp/t.mp3", .ok (some "テスト"), false, fun s => s⟩).tmpCreated = false :=
  ⟨by decide,
    (oversized_skipped_before_tmpfile ⟨"big.mp3", some 52428801, none⟩
      ⟨true, "/tmp/t.mp3", .ok (some "テスト"), false, fun s => s⟩ (by decide)).1⟩

/-- C6: when the model call for a validated file raises, the exception
is caught: the file contributes no row, the user sees the generic
transcription warning, the entire visible outcome is independent of the
exception's detail string, and every other file of the batch is
processed and exported exactly as if the failing file were absent. -/
theorem transcription_failure_isolated (f : UploadedFile) (env : FileEnv) (d : String)
    (hsz : sizeExceeded f = false)
    (hext : ALLOWED_EXT.contains (_safe_ext f.name) = true)
    (hread : env.readOk = true)
    (herr : env.modelOutcome = .error d) :
    (processFile f env).row = none
    ∧ Msg.warnTranscribeFail f.name ∈ (processFile f env).msgs
    ∧ (∀ d' : String, processFile f {env with modelOutcome := .error d'} = processFile f env)
    ∧ ∀ pre post, batchRows (pre ++ (f, env) :: post) = batchRows pre ++ batchRows post := by
  have hext' : _safe_ext f.name ∈ ALLOWED_EXT := by simpa using hext
  have hrow : (processFile f env).row = none := by
    simp [processFile, hsz, hext', hread, herr, transcribe_from_bytesio]
  refine ⟨hrow, ?_, ?_, ?_⟩
  · simp [processFile, hsz, hext', hread, herr, transcribe_from_bytesio]
  · intro d'
    simp [processFile, hsz, hext', hread, herr, transcribe_from_bytesio]
  · intro pre post
    simp [batchRows, List.filterMap_append, List.filterMap_cons, hrow]

/-- Concrete instance of `transcription_failure_isolated`: a failing
model call on a valid `.mp3` yields no row. -/
theorem transcription_failure_isolated_witness :
    (sizeExceeded ⟨"a.mp3", some 100, none⟩ = false
      ∧ ALLOWED_EXT.contains (_safe_ext "a.mp3") = true)
    ∧ (processFile ⟨"a.mp3", some 100, none⟩
        ⟨true, "/tmp/t.mp3", .error "boom", false, fun s => s⟩).row = none :=
  ⟨⟨by decide, by decide⟩,
    (transcription_failure_isolated ⟨"a.mp3", some 100, none⟩
      ⟨true, "/tmp/t.mp3", .error "boom", false, fun s => s⟩ "boom"
      (by decide) (by decide) rfl rfl).1⟩

/-- C9: a model result dictionary without a `"text"` key makes
`transcribe_from_bytesio` return the empty string rather than raise
(`result.get("text", "")`), the downstream `(text or "")` guard keeps it
empty, and such a file is treated as successfully transcribed: it still
receives an export row, whose text is the (possibly edited) empty
transcript. -/
theorem missing_text_key_yields_empty_row (env : TEnv)
    (hmo : env.modelOutcome = .ok none) :
    (transcribe_from_bytesio env []).1 = .ok ""
    ∧ pyOr "" = ""
    ∧ safe_text "" = ""
    ∧ ∀ (f : UploadedFile) (fenv : FileEnv),
        sizeExceeded f = false →
        ALLOWED_EXT.contains (_safe_ext f.name) = true →
        fenv.readOk = true →
        fenv.modelOutcome = .ok none →
        (processFile f fenv).row = some ⟨f.name, fenv.edit ""⟩ := by
  refine ⟨by simp [transcribe_from_bytesio, hmo], rfl, rfl, ?_⟩
  intro f fenv hsz hext hread hok
  have hext' : _safe_ext f.name ∈ ALLOWED_EXT := by simpa using hext
  simp [processFile, hsz, hext', hread, hok, transcribe_from_bytesio]
  rfl

/-- Concrete instance of `missing_text_key_yields_empty_row`: a result
dictionary lacking `"text"` produces the row with empty text. -/
theorem missing_text_key_yields_empty_row_witness :
    (transcribe_from_bytesio ⟨"/tmp/t.mp3", .ok none, false⟩ []).1 = .ok ""
    ∧ (processFile ⟨"b.mp3", some 7, none⟩
        ⟨true, "/tmp/t.mp3", .ok none, false, fun s => s⟩).row = some ⟨"b.mp3", ""⟩ :=
  ⟨(missing_text_key_yields_empty_row ⟨"/tmp/t.mp3", .ok none, false⟩ rfl).1,
    (missing_text_key_yields_empty_row ⟨"/tmp/t.mp3", .ok none, false⟩ rfl).2.2.2
      ⟨"b.mp3", some 7, none⟩ ⟨true, "/tmp/t.mp3", .ok none, false, fun s => s⟩
      (by decide) (by decide) rfl rfl⟩

/-- C10: the size validator rejects only on strict excess of the 50 MB
threshold: any declared size up to and including exactly
`50 * 1024 * 1024` bytes passes (and the file, when otherwise valid, is
transcribed and exported), a missing declared size counts as 0 bytes and
always passes, and a size of even one byte more is rejected before any
temporary file exists. -/
theorem size_check_strict_boundary (f : UploadedFile) (env : FileEnv)
    (hext : ALLOWED_EXT.contains (_safe_ext f.name) = true)
    (hread : env.readOk = true)
    (t : Option String) (hok : env.modelOutcome = .ok t) :
    (∀ n, f.size = some n → n ≤ MAX_MB_EACH * 1024 * 1024 →
      (processFile f env).row = some (mkRow (f, env)))
    ∧ (f.size = none → (processFile f env).row = some (mkRow (f, env)))
    ∧ (∀ n, f.size = some n → MAX_MB_EACH * 1024 * 1024 < n →
      (processFile f env).row = none ∧ (processFile f env).tmpCreated = false) := by
  have hext' : _safe_ext f.name ∈ ALLOWED_EXT := by simpa using hext
  have haccept : sizeExceeded f = false → (processFile f env).row = some (mkRow (f, env)) := by
    intro hsz
    rw [processFile_row (f, env)]
    simp [accepts, hsz, hext', hread, hok, Except.isOk, Except.toBool]
  refine ⟨?_, ?_, ?_⟩
  · intro n hn hle
    refine haccept ?_
    simp only [sizeExceeded, hn, Option.getD_some]
    exact decide_eq_false (by omega)
  · intro hn
    refine haccept ?_
    simp [sizeExceeded, hn]
  · intro n hn hlt
    have hsz : sizeExceeded f = true := by
      simp only [sizeExceeded, hn, Option.getD_some]
      exact decide_eq_true hlt
    exact ⟨by simp [processFile, hsz], by simp [processFile, hsz]⟩

/-- Concrete instance of `size_check_strict_boundary`: a file of exactly
50 MB is accepted and exported. -/
theorem size_check_strict_boundary_witness :
    (ALLOWED_EXT.contains (_safe_ext "edge.mp3") = true
      ∧ (52428800 : Nat) ≤ MAX_MB_EACH * 1024 * 1024)
    ∧ (processFile ⟨"edge.mp3", some 52428800, none⟩
        ⟨true, "/tmp/t.mp3", .ok (some "音声"), false, fun s => s⟩).row =
      some (mkRow (⟨"edge.mp3", some 52428800, none⟩,
        ⟨true, "/tmp/t.mp3", .ok (some "音声"), false, fun s => s⟩)) :=
  ⟨⟨by decide, by decide⟩,
    (size_check_strict_boundary ⟨"edge.mp3", some 52428800, none⟩
      ⟨true, "/tmp/t.mp3", .ok (some "音声"), false, fun s => s⟩
      (by decide) rfl (some "音声") rfl).1 52428800 rfl (by decide)⟩

/-- Whether the CSV writer must quote a field (`csv.QUOTE_MINIMAL`):
it contains a comma, a double quote, or a line break. -/
def csvNeedsQuoting (s : String) : Bool :=
  s.data.any (fun c => c = ',' || c = '"' || c = '\n' || c = '\r')

/-- One CSV field under minimal quoting: embedded double quotes are
doubled and the field is wrapped in double quotes when needed. -/
def csvField (s : String) : String :=
  if csvNeedsQuoting s then "\"" ++ s.replace "\"" "\"\"" ++ "\"" else s

/-- The header row of the exported table: the two localized column
names of the `results` dictionaries, in insertion order. -/
def csvHeader : String := "ファイル名,書き起こしテキスト"

/-- One data row of the export: the two fields of a result, comma
separated. -/
def csvLine (r : Row) : String :=
  csvField r.fileName ++ "," ++ csvField r.text

/-- All lines of `df.to_csv(index=False)`: header first, then one data
row per result in order. -/
def csvLines (rows : List Row) : List String :=
  csvHeader :: rows.map csvLine

/-- The CSV text: every line terminated by a newline. -/
def csvString (rows : List Row) : String :=
  String.join ((csvLines rows).map (fun l => l ++ "\n"))

/-- UTF-8 encoding of one scalar value, by the standard ranges. -/
def utf8EncodeChar (c : Char) : List Nat :=
  let n := c.toNat
  if n < 0x80 then [n]
  else if n < 0x800 then
    [0xC0 ||| (n >>> 6), 0x80 ||| (n &&& 0x3F)]
  else if n < 0x10000 then
    [0xE0 ||| (n >>> 12), 0x80 ||| ((n >>> 6) &&& 0x3F), 0x80 ||| (n &&& 0x3F)]
  else
    [0xF0 ||| (n >>> 18), 0x80 ||| ((n >>> 12) &&& 0x3F),
      0x80 ||| ((n >>> 6) &&& 0x3F), 0x80 ||| (n &&& 0x3F)]

/-- UTF-8 encoding of a string. -/
def utf8Encode (s : String) : List Nat :=
  (s.data.map utf8EncodeChar).flatten

/-- The three-byte UTF-8 byte-order mark. -/
def utf8BOM : List Nat := [0xEF, 0xBB, 0xBF]

/-- Python `str.encode("utf-8-sig")`: the byte-order mark followed by
the UTF-8 bytes, as in `csv_data.encode("utf-8-sig")` of the source. -/
def encodeUtf8Sig (s : String) : List Nat :=
  utf8BOM ++ utf8Encode s

/-- The downloadable artifact handed to `st.download_button`. -/
structure Artifact where
  byteData : List Nat
  downloadName : String
  mime : String
deriving DecidableEq

/-- Environment of the export step: whether CSV construction / download
setup raises. -/
structure ExportEnv where
  exportRaises : Bool

/-- The `try` body of the export block: build the DataFrame, serialize
it, and set up the download button — or raise. -/
def buildExport (rows : List Row) (eenv : ExportEnv) : Except String Artifact :=
  if eenv.exportRaises then .error "export failed"
  else .ok ⟨encodeUtf8Sig (csvString rows), "transcriptions.csv", "text/csv"⟩

/-- The export block of the source: nothing happens when `results` is
empty; otherwise the `try/except` around serialization turns a failure
into a warning and no artifact. -/
def exportResults (rows : List Row) (eenv : ExportEnv) : Option Artifact × List Msg :=
  if rows.isEmpty then (none, [])
  else
    match buildExport rows eenv with
    | .error _ => (none, [.warnExportFail])
    | .ok art => (some art, [])

theorem isEmpty_false_of_ne_nil {α : Type} (l : List α) (h : l ≠ []) :
    l.isEmpty = false := by
  cases l with
  | nil => exact absurd rfl h
  | cons a t => rfl

/-- C5: the export holds exactly the accepted files, in upload order:
the accumulated `results` equal the accepted sublist mapped to its rows,
the CSV has one data line per accepted file (plus the header), and the
`i`-th data line is the rendering of the `i`-th accepted file's filename
and its (possibly user-edited) transcript. -/
theorem csv_rows_match_accepted_files (files : List (UploadedFile × FileEnv)) :
    batchRows files = (files.filter accepts).map mkRow
    ∧ (csvLines (batchRows files)).length = (files.filter accepts).length + 1
    ∧ ∀ i (h : i < (files.filter accepts).length)
        (h2 : i + 1 < (csvLines (batchRows files)).length),
        (csvLines (batchRows files))[i + 1] =
          csvLine (mkRow ((files.filter accepts)[i])) := by
  refine ⟨batchRows_eq_filter files, ?_, ?_⟩
  · simp [csvLines, batchRows_eq_filter]
  · intro i h h2
    simp [csvLines, batchRows_eq_filter]

/-- A concrete one-file batch used to instantiate the batch-level
theorems. -/
def sampleBatch : List (UploadedFile × FileEnv) :=
  [(⟨"a.mp3", some 3, none⟩,
    ⟨true, "/tmp/t.mp3", .ok (some "クラシャです"), false, fun s => s⟩)]

/-- Concrete instance of `csv_rows_match_accepted_files`: the single
accepted file of `sampleBatch` yields the single data line. -/
theorem csv_rows_match_accepted_files_witness :
    (0 < (sampleBatch.filter accepts).length
      ∧ 0 + 1 < (csvLines (batchRows sampleBatch)).length)
    ∧ (csvLines (batchRows sampleBatch)).get ⟨0 + 1, by decide⟩ =
      csvLine (mkRow ((sampleBatch.filter accepts).get ⟨0, by decide⟩)) := by
  refine ⟨⟨by decide, by decide⟩, ?_⟩
  have h := (csv_rows_match_accepted_files sampleBatch).2.2 0 (by decide) (by decide)
  simpa using h

/-- C7: for a nonempty result set and a non-failing serialization, the
export artifact exists, is offered under the filename
`transcriptions.csv` with MIME type `text/csv`, and its bytes are the
UTF-8 encoding of the CSV text (header line with the two localized
column names, then one line per row) prefixed with the byte-order
mark. -/
theorem csv_export_artifact_format (rows : List Row) (eenv : ExportEnv)
    (hne : rows ≠ []) (hok : eenv.exportRaises = false) :
    ∃ art, (exportResults rows eenv).1 = some art
      ∧ art.downloadName = "transcriptions.csv"
      ∧ art.mime = "text/csv"
      ∧ art.byteData = utf8BOM ++ utf8Encode (csvString rows)
      ∧ art.byteData.take 3 = [0xEF, 0xBB, 0xBF]
      ∧ csvLines rows = csvHeader :: rows.map csvLine := by
  refine ⟨⟨encodeUtf8Sig (csvString rows), "transcriptions.csv", "text/csv"⟩,
    ?_, rfl, rfl, rfl, ?_, rfl⟩
  · simp [exportResults, buildExport, hok, isEmpty_false_of_ne_nil rows hne]
  · simp [encodeUtf8Sig, utf8BOM]

/-- Concrete instance of `csv_export_artifact_format`: one row exports
to a BOM-prefixed CSV artifact. -/
theorem csv_export_artifact_format_witness :
    (([⟨"a.mp3", "こんにちは"⟩] : List Row) ≠ [] ∧ (⟨false⟩ : ExportEnv).exportRaises = false)
    ∧ ∃ art, (exportResults [⟨"a.mp3", "こんにちは"⟩] ⟨false⟩).1 = some art
      ∧ art.downloadName = "transcriptions.csv" :=
  ⟨⟨by decide, rfl⟩,
    match csv_export_artifact_format [⟨"a.mp3", "こんにちは"⟩] ⟨false⟩ (by decide) rfl with
    | ⟨art, h1, h2, _⟩ => ⟨art, h1, h2⟩⟩

/-- Final screen state of one script run: the offered download, the
messages shown, and the result rows still held after the run (always
none: `results` is deleted in the `finally`, and no state outlives the
run). -/
structure Render where
  download : Option Artifact
  msgs : List Msg
  retainedResults : List Row

/-- One full run of the script: the prompt when nothing is uploaded,
otherwise the processing loop followed by the export block.  Every
exception source is caught inside, so the run always terminates with
`.ok`: an `.error` here would mean an exception escaped to the top
level. -/
def runScript (files : List (UploadedFile × FileEnv)) (eenv : ExportEnv) :
    Except String Render :=
  if files.isEmpty then
    .ok ⟨none, [.infoUploadPrompt], []⟩
  else
    let out := exportResults (batchRows files) eenv
    .ok ⟨out.1, batchMsgs files ++ out.2, []⟩

/-- C8: a failing export serialization is recoverable: the run still
terminates normally (no exception escapes), the user sees the export
warning, no download is offered, the batch results are discarded, and —
for any batch and any export outcome whatsoever — the script returns to
its idle state rather than dying. -/
theorem export_failure_recoverable (files : List (UploadedFile × FileEnv))
    (eenv : ExportEnv) (hx : eenv.exportRaises = true)
    (hrows : batchRows files ≠ []) :
    (∃ r : Render, runScript files eenv = .ok r
      ∧ r.download = none
      ∧ Msg.warnExportFail ∈ r.msgs
      ∧ r.retainedResults = [])
    ∧ ∀ (fs2 : List (UploadedFile × FileEnv)) (e2 : ExportEnv),
        (runScript fs2 e2).isOk = true := by
  have hfe : files ≠ [] := by
    intro h
    rw [h] at hrows
    exact hrows rfl
  constructor
  · refine ⟨⟨none, batchMsgs files ++ [.warnExportFail], []⟩, ?_, rfl, by simp, rfl⟩
    simp [runScript, isEmpty_false_of_ne_nil files hfe, exportResults, buildExport, hx,
      isEmpty_false_of_ne_nil (batchRows files) hrows]
  · intro fs2 e2
    unfold runScript
    split <;> rfl

/-- Concrete instance of `export_failure_recoverable`: the one-file
batch with a failing export ends in the idle state with a warning. -/
theorem export_failure_recoverable_witness :
    ((⟨true⟩ : ExportEnv).exportRaises = true ∧ batchRows sampleBatch ≠ [])
    ∧ ∃ r : Render, runScript sampleBatch ⟨true⟩ = .ok r ∧ r.download = none :=
  ⟨⟨rfl, by decide⟩,
    match export_failure_recoverable sampleBatch ⟨true⟩ rfl (by decide) with
    | ⟨⟨r, h1, h2, _⟩, _⟩ => ⟨r, h1, h2⟩⟩
